import Mathlib

/-!
Verification of the advanced-vector container (`src/advanced-vector/vector.h`).

The C++ code is shallowly embedded.  Raw storage (`RawMemory<T>`) is a list of
slots, where a slot is `some x` when it holds a live, constructed object of
value `x`, and `none` when it is raw (uninitialized) memory.  The capacity of a
buffer is the length of the list.  `Vector<T>` is the pair of its buffer
`data_` and its logical size `size_`, exactly as in the source.  The standard
algorithms used by the source (`std::destroy_n`,
`std::uninitialized_value_construct_n`, `std::uninitialized_copy_n` /
`std::uninitialized_move_n`, `std::move`, `std::move_backward`) are embedded as
slot-level loop functions with the same read/write order as their C++
specifications.  Element values are copied verbatim (a C++ copy yields an equal
value, and a move in the value model also preserves the value).

For the exception-safety properties, element construction is made fallible:
an attempted construction is an `Option T` (`none` models the constructor
throwing), and an attempted element copy is `tryCopy : T → Option T`.  The
fallible embeddings return `Except (Vector T × RawMemory T) (Vector T)`:
on `Except.error (v, leaked)`, `v` is the vector state observed by the caller
after the exception has propagated out, and `leaked` is the slot state of the
freshly allocated buffer at the moment `RawMemory`'s destructor deallocates it
(any slot still `some` at that point is a constructed object whose destructor
never runs — a leak).
-/

namespace AdvVec

/-- A slot of raw storage: `some x` is a live constructed object, `none` is
uninitialized memory. -/
abbrev Slot (T : Type) := Option T

/-- The storage block owned by a `RawMemory<T>`: one entry per element slot.
The capacity is the length of the list. -/
abbrev RawMemory (T : Type) := List (Slot T)

/-- Read the slot at offset `i` (out-of-range reads yield `none`; the source
asserts `offset <= capacity_` and never dereferences one-past-end). -/
def readSlot (l : RawMemory T) (i : Nat) : Slot T := l.getD i none

/-- Overwrite the slot at offset `i` (out of range: no-op, mirroring that the
source never writes out of range). -/
def writeSlot (l : RawMemory T) (i : Nat) (s : Slot T) : RawMemory T := l.set i s

/-- `RawMemory<T>::Allocate(n)`: a fresh block of `n` raw (uninitialized)
slots. -/
def Allocate (T : Type) (n : Nat) : RawMemory T := List.replicate n none

/-- `std::destroy_n(ptr + off, n)`: end the lifetime of the `n` objects at
offsets `off, off+1, …`. -/
def destroyN (l : RawMemory T) (off : Nat) : Nat → RawMemory T
  | 0 => l
  | n + 1 => destroyN (writeSlot l off none) (off + 1) n

/-- `std::uninitialized_value_construct_n(ptr + off, n)` for the embedded
element type, whose value-initialized value is `d`. -/
def valueConstructN (d : T) (l : RawMemory T) (off : Nat) : Nat → RawMemory T
  | 0 => l
  | n + 1 => valueConstructN d (writeSlot l off (some d)) (off + 1) n

/-- `std::uninitialized_copy_n(src + a, n, dst + b)` (and, in the value model,
also `std::uninitialized_move_n`): construct copies of the `n` source slots
into the destination slots, in increasing offset order. -/
def transferN (src : RawMemory T) (a : Nat) (dst : RawMemory T) (b : Nat) :
    Nat → RawMemory T
  | 0 => dst
  | n + 1 => transferN src (a + 1) (writeSlot dst b (readSlot src a)) (b + 1) n

/-- `std::move(first, last, d_first)` restricted to the one-buffer use in
`Erase`: assign slot `k+i` from slot `k+i+1`, for `i = 0, …, n-1`, in
increasing order. -/
def moveLeftN (l : RawMemory T) (k : Nat) : Nat → RawMemory T
  | 0 => l
  | n + 1 => moveLeftN (writeSlot l k (readSlot l (k + 1))) (k + 1) n

/-- `std::move_backward(first, last, d_last)` restricted to the one-buffer use
in `Emplace`: assign slot `dlast-1` from slot `last-1`, then recurse with both
shifted down, `n` times (decreasing offset order, as the C++ algorithm
specifies). -/
def moveBackwardN (l : RawMemory T) (last dlast : Nat) : Nat → RawMemory T
  | 0 => l
  | n + 1 =>
    moveBackwardN (writeSlot l (dlast - 1) (readSlot l (last - 1))) (last - 1) (dlast - 1) n

/-- `Vector<T>`: the owned buffer and the logical size, as in the source. -/
structure Vector (T : Type) where
  data_ : RawMemory T
  size_ : Nat
  deriving DecidableEq

/-- `Vector<T>::Size()`. -/
def Vector.Size (v : Vector T) : Nat := v.size_

/-- `Vector<T>::Capacity()` (= `data_.Capacity()`). -/
def Vector.Capacity (v : Vector T) : Nat := v.data_.length

/-- The observable content of the vector: the slots at offsets `[0, size_)`. -/
def Vector.contents (v : Vector T) : List (Slot T) :=
  (List.range v.size_).map (readSlot v.data_)

/-- `Vector() = default`: size 0, capacity 0. -/
def Vector.mkDefault : Vector T := ⟨[], 0⟩

/-- `Vector(size_t size)`: allocate `size` slots and value-construct all of
them; `d` is the element type's value-initialized value. -/
def Vector.mkSized (d : T) (n : Nat) : Vector T :=
  ⟨valueConstructN d (Allocate T n) 0 n, n⟩

/-- `Vector(const Vector& other)`: allocate `other.size_` slots and
copy-construct the `other.size_` elements into them. -/
def Vector.copyConstruct (other : Vector T) : Vector T :=
  ⟨transferN other.data_ 0 (Allocate T other.size_) 0 other.size_, other.size_⟩

/-- `Vector(Vector&& other)`: steals the buffer, exchanges the size with 0.
Returns `(the new vector, other after the move)`. -/
def Vector.moveConstruct (other : Vector T) : Vector T × Vector T :=
  (⟨other.data_, other.size_⟩, ⟨[], 0⟩)

/-- `operator=(Vector&& rhs)`: `data_ = std::move(rhs.data_)`,
`size_ = std::exchange(rhs.size_, 0)`.  Returns `(self after, rhs after)`. -/
def Vector.assignMove (_self rhs : Vector T) : Vector T × Vector T :=
  (⟨rhs.data_, rhs.size_⟩, ⟨[], 0⟩)

/-- `Vector<T>::Swap(other)`: exchange buffer and size.  Returns both. -/
def Vector.SwapWith (a b : Vector T) : Vector T × Vector T :=
  (⟨b.data_, b.size_⟩, ⟨a.data_, a.size_⟩)

/-- The body of the copy `operator=` for `this != &rhs`:
copy-and-swap when `rhs.size_ > data_.Capacity()`, otherwise reuse the buffer
(assign the overlapping prefix, then destroy the excess tail or copy-construct
the extra suffix). -/
def Vector.assignCopyBody (self rhs : Vector T) : Vector T :=
  if rhs.size_ > self.Capacity then
    Vector.copyConstruct rhs
  else if rhs.size_ < self.size_ then
    ⟨destroyN (transferN rhs.data_ 0 self.data_ 0 rhs.size_) rhs.size_
        (self.size_ - rhs.size_), rhs.size_⟩
  else
    ⟨transferN rhs.data_ self.size_ (transferN rhs.data_ 0 self.data_ 0 self.size_)
        self.size_ (rhs.size_ - self.size_), rhs.size_⟩

/-- `operator=(const Vector& rhs)`.  `sameObject` is the address test
`this == &rhs` of the source's guard `if (this != &rhs)`. -/
def Vector.assignCopy (self rhs : Vector T) (sameObject : Bool) : Vector T :=
  if sameObject then self else Vector.assignCopyBody self rhs

/-- `Vector<T>::Reserve(new_capacity)`: no-op when enough capacity; otherwise
allocate, transfer the `size_` live elements, destroy the originals, swap. -/
def Vector.Reserve (v : Vector T) (newCapacity : Nat) : Vector T :=
  if newCapacity ≤ v.Capacity then v
  else ⟨transferN v.data_ 0 (Allocate T newCapacity) 0 v.size_, v.size_⟩

/-- `Vector<T>::Resize(new_size)`: destroy the excess tail when shrinking;
reserve then value-construct the new tail when growing (`d` is the element
type's value-initialized value). -/
def Vector.Resize (v : Vector T) (d : T) (newSize : Nat) : Vector T :=
  if newSize ≤ v.size_ then
    ⟨destroyN v.data_ newSize (v.size_ - newSize), newSize⟩
  else
    let r := v.Reserve newSize
    ⟨valueConstructN d r.data_ r.size_ (newSize - r.size_), newSize⟩

/-- `Vector<T>::PushBack(value)` (both overloads construct one element from
`value`; in the value model copy and move coincide).  When full: allocate
`size_ == 0 ? 1 : size_ * 2`, construct the new element at offset `size_` of
the new buffer, transfer the old elements, destroy them, swap. -/
def Vector.PushBack (v : Vector T) (value : T) : Vector T :=
  if v.size_ = v.Capacity then
    let newCapacity := if v.size_ = 0 then 1 else v.size_ * 2
    let newData := writeSlot (Allocate T newCapacity) v.size_ (some value)
    ⟨transferN v.data_ 0 newData 0 v.size_, v.size_ + 1⟩
  else
    ⟨writeSlot v.data_ v.size_ (some value), v.size_ + 1⟩

/-- `Vector<T>::EmplaceBack(args...)`: same algorithm as `PushBack`, the
element being constructed from `args...` with value `value`. -/
def Vector.EmplaceBack (v : Vector T) (value : T) : Vector T :=
  if v.size_ = v.Capacity then
    let newCapacity := if v.size_ = 0 then 1 else v.size_ * 2
    let newData := writeSlot (Allocate T newCapacity) v.size_ (some value)
    ⟨transferN v.data_ 0 newData 0 v.size_, v.size_ + 1⟩
  else
    ⟨writeSlot v.data_ v.size_ (some value), v.size_ + 1⟩

/-- `Vector<T>::PopBack()`: destroy the last element, decrement the size. -/
def Vector.PopBack (v : Vector T) : Vector T :=
  ⟨destroyN v.data_ (v.size_ - 1) 1, v.size_ - 1⟩

/-- `Vector<T>::Erase(pos)` with `k = pos - cbegin()`:
`std::move(pos+1, end(), pos)` (count `size_ - 1 - k`), destroy the last
element, decrement the size. -/
def Vector.Erase (v : Vector T) (k : Nat) : Vector T :=
  ⟨destroyN (moveLeftN v.data_ k (v.size_ - 1 - k)) (v.size_ - 1) 1, v.size_ - 1⟩

/-- `Vector<T>::Emplace(pos, args...)` with `k = pos - cbegin()` and the new
element's value `value`.  Growth path: allocate `size_ == 0 ? 1 : 2 * size_`,
construct the new element at offset `k` of the new buffer, transfer `[0, k)`
to `[0, k)`, transfer `[k, size_)` to `[k+1, size_+1)`, destroy the originals,
swap.  Room path: construct at the end when `pos == cend()`, otherwise build a
temporary, move the last element one past the end, `std::move_backward` the
range `[k, size_-1)` to end at `size_`, and move-assign the temporary into
slot `k`. -/
def Vector.Emplace (v : Vector T) (k : Nat) (value : T) : Vector T :=
  let newSize := v.size_ + 1
  if v.size_ = v.Capacity then
    let newCapacity := if v.size_ = 0 then 1 else 2 * v.size_
    let newData := writeSlot (Allocate T newCapacity) k (some value)
    let newData := transferN v.data_ 0 newData 0 k
    ⟨transferN v.data_ k newData (k + 1) (v.size_ - k), newSize⟩
  else if k = v.size_ then
    ⟨writeSlot v.data_ v.size_ (some value), newSize⟩
  else
    let afterLast := writeSlot v.data_ v.size_ (readSlot v.data_ (v.size_ - 1))
    let shifted := moveBackwardN afterLast (v.size_ - 1) v.size_ (v.size_ - 1 - k)
    ⟨writeSlot shifted k (some value), newSize⟩

/-- `Vector<T>::Insert(pos, value)` (both overloads): forwards to `Emplace`. -/
def Vector.Insert (v : Vector T) (k : Nat) (value : T) : Vector T :=
  v.Emplace k value

/-- `std::uninitialized_copy_n(src + a, n, dst + b)` with a fallible element
copy (`tryCopy x = none` models the copy constructor throwing).  On failure
the algorithm destroys the objects it itself already constructed and rethrows;
the `Except.error` carries the destination buffer's slot state at the rethrow
point. -/
def uninitCopyFallibleN (tryCopy : T → Option T) (src : RawMemory T) (a : Nat)
    (dst : RawMemory T) (b : Nat) : Nat → Except (RawMemory T) (RawMemory T)
  | 0 => Except.ok dst
  | n + 1 =>
    match (readSlot src a).bind tryCopy with
    | none => Except.error dst
    | some x =>
      match uninitCopyFallibleN tryCopy src (a + 1) (writeSlot dst b (some x)) (b + 1) n with
      | Except.ok d => Except.ok d
      | Except.error d => Except.error (writeSlot d b none)

/-- `PushBack` with fallible element operations.  `mkNew` is the outcome of
constructing the new element (`none` = its constructor throws); `tryCopy` is
the per-element outcome of the transfer into the new buffer (relevant only
when the copying branch of the `if constexpr` is selected; instantiate
`tryCopy := some` for the nothrow-move branch).  On `Except.error (v, leaked)`,
`v` is the vector after the exception propagates and `leaked` is the new
buffer's slot state when it is deallocated.  Note the source wraps no
handler around the transfer in `PushBack`. -/
def Vector.PushBackFallible (tryCopy : T → Option T) (mkNew : Option T)
    (v : Vector T) : Except (Vector T × RawMemory T) (Vector T) :=
  if v.size_ = v.Capacity then
    let newCapacity := if v.size_ = 0 then 1 else v.size_ * 2
    let newData := Allocate T newCapacity
    match mkNew with
    | none => Except.error (v, newData)
    | some x =>
      match uninitCopyFallibleN tryCopy v.data_ 0 (writeSlot newData v.size_ (some x)) 0 v.size_ with
      | Except.error d => Except.error (v, d)
      | Except.ok d => Except.ok ⟨d, v.size_ + 1⟩
  else
    match mkNew with
    | none => Except.error (v, [])
    | some x => Except.ok ⟨writeSlot v.data_ v.size_ (some x), v.size_ + 1⟩

/-- `EmplaceBack` with fallible element operations (same algorithm as
`PushBack`, the new element constructed from the forwarded arguments). -/
def Vector.EmplaceBackFallible (tryCopy : T → Option T) (mkNew : Option T)
    (v : Vector T) : Except (Vector T × RawMemory T) (Vector T) :=
  if v.size_ = v.Capacity then
    let newCapacity := if v.size_ = 0 then 1 else v.size_ * 2
    let newData := Allocate T newCapacity
    match mkNew with
    | none => Except.error (v, newData)
    | some x =>
      match uninitCopyFallibleN tryCopy v.data_ 0 (writeSlot newData v.size_ (some x)) 0 v.size_ with
      | Except.error d => Except.error (v, d)
      | Except.ok d => Except.ok ⟨d, v.size_ + 1⟩
  else
    match mkNew with
    | none => Except.error (v, [])
    | some x => Except.ok ⟨writeSlot v.data_ v.size_ (some x), v.size_ + 1⟩

/-- `Emplace` with fallible element operations, following the source's two
`try`/`catch` blocks in the growth path: if the first transfer (elements
before `pos`) fails, the handler destroys 1 element at `new_data + k` and
rethrows; if the second transfer (elements from `pos` on) fails, the handler
destroys `k` elements at `new_data` and rethrows.  In the room path only the
construction of the new element (`mkNew`) can fail. -/
def Vector.EmplaceFallible (tryCopy : T → Option T) (mkNew : Option T)
    (v : Vector T) (k : Nat) : Except (Vector T × RawMemory T) (Vector T) :=
  if v.size_ = v.Capacity then
    let newCapacity := if v.size_ = 0 then 1 else 2 * v.size_
    let newData := Allocate T newCapacity
    match mkNew with
    | none => Except.error (v, newData)
    | some x =>
      let nd := writeSlot newData k (some x)
      match uninitCopyFallibleN tryCopy v.data_ 0 nd 0 k with
      | Except.error d => Except.error (v, destroyN d k 1)
      | Except.ok nd2 =>
        match uninitCopyFallibleN tryCopy v.data_ k nd2 (k + 1) (v.size_ - k) with
        | Except.error d => Except.error (v, destroyN d 0 k)
        | Except.ok nd3 => Except.ok ⟨nd3, v.size_ + 1⟩
  else if k = v.size_ then
    match mkNew with
    | none => Except.error (v, [])
    | some x => Except.ok ⟨writeSlot v.data_ v.size_ (some x), v.size_ + 1⟩
  else
    match mkNew with
    | none => Except.error (v, [])
    | some x =>
      let afterLast := writeSlot v.data_ v.size_ (readSlot v.data_ (v.size_ - 1))
      let shifted := moveBackwardN afterLast (v.size_ - 1) v.size_ (v.size_ - 1 - k)
      Except.ok ⟨writeSlot shifted k (some x), v.size_ + 1⟩

/-- The container invariant: `size_ ≤ Capacity`, and a slot holds a live
object exactly at the offsets `[0, size_)`. -/
def Inv (v : Vector T) : Prop :=
  v.size_ ≤ v.Capacity ∧ ∀ i, (readSlot v.data_ i).isSome ↔ i < v.size_

/-- A vector state is reachable when it is produced by a sequence of the
public operations (each used within its documented precondition). -/
inductive Reachable {T : Type} : Vector T → Prop where
  | mkDefault : Reachable Vector.mkDefault
  | mkSized (d : T) (n : Nat) : Reachable (Vector.mkSized d n)
  | copyConstruct (v : Vector T) : Reachable v → Reachable (Vector.copyConstruct v)
  | moveConstructFst (v : Vector T) : Reachable v → Reachable (Vector.moveConstruct v).1
  | moveConstructSnd (v : Vector T) : Reachable v → Reachable (Vector.moveConstruct v).2
  | assignCopySelf (a : Vector T) : Reachable a → Reachable (a.assignCopy a true)
  | assignCopyOther (b a : Vector T) :
      Reachable b → Reachable a → Reachable (b.assignCopy a false)
  | assignMoveFst (b a : Vector T) :
      Reachable b → Reachable a → Reachable (b.assignMove a).1
  | assignMoveSnd (b a : Vector T) :
      Reachable b → Reachable a → Reachable (b.assignMove a).2
  | swapFst (a b : Vector T) : Reachable a → Reachable b → Reachable (a.SwapWith b).1
  | swapSnd (a b : Vector T) : Reachable a → Reachable b → Reachable (a.SwapWith b).2
  | reserve (v : Vector T) (n : Nat) : Reachable v → Reachable (v.Reserve n)
  | resize (v : Vector T) (d : T) (n : Nat) : Reachable v → Reachable (v.Resize d n)
  | pushBack (v : Vector T) (x : T) : Reachable v → Reachable (v.PushBack x)
  | emplaceBack (v : Vector T) (x : T) : Reachable v → Reachable (v.EmplaceBack x)
  | popBack (v : Vector T) : Reachable v → Reachable v.PopBack
  | erase (v : Vector T) (k : Nat) : k < v.size_ → Reachable v → Reachable (v.Erase k)
  | emplace (v : Vector T) (k : Nat) (x : T) :
      k ≤ v.size_ → Reachable v → Reachable (v.Emplace k x)
  | insert (v : Vector T) (k : Nat) (x : T) :
      k ≤ v.size_ → Reachable v → Reachable (v.Insert k x)

/-- `n` consecutive `PushBack` calls starting from the default-constructed
(empty, capacity-0) vector. -/
def Vector.pushRepeat (x : T) : Nat → Vector T
  | 0 => Vector.mkDefault
  | n + 1 => (Vector.pushRepeat x n).PushBack x

/-! ### Pointwise characterization of the storage primitives -/

theorem readSlot_oob (l : RawMemory T) {i : Nat} (h : l.length ≤ i) :
    readSlot l i = none :=
  List.getD_eq_default l none h

theorem readSlot_writeSlot (l : RawMemory T) (i j : Nat) (s : Slot T) :
    readSlot (writeSlot l i s) j = if j = i ∧ j < l.length then s else readSlot l j := by
  simp only [readSlot, writeSlot, List.getD_eq_getElem?_getD, List.getElem?_set]
  by_cases hij : i = j
  · subst hij
    by_cases hl : i < l.length
    · rw [if_pos rfl, if_pos hl, if_pos ⟨rfl, hl⟩]
      rfl
    · rw [if_pos rfl, if_neg hl, if_neg (fun h : i = i ∧ i < l.length => hl h.2),
        List.getElem?_eq_none (by omega)]
  · rw [if_neg hij, if_neg (fun h : j = i ∧ j < l.length => hij h.1.symm)]

theorem length_writeSlot (l : RawMemory T) (i : Nat) (s : Slot T) :
    (writeSlot l i s).length = l.length :=
  List.length_set l i s

theorem getElem?_eq_readSlot (l : RawMemory T) (i : Nat) (h : i < l.length) :
    l[i]? = some (readSlot l i) := by
  simp only [readSlot, List.getD_eq_getElem?_getD]
  rw [List.getElem?_eq_getElem h]
  rfl

theorem rawMemoryExt (l₁ l₂ : RawMemory T) (hlen : l₁.length = l₂.length)
    (h : ∀ i, i < l₁.length → readSlot l₁ i = readSlot l₂ i) : l₁ = l₂ := by
  apply List.ext_getElem?
  intro n
  by_cases hn : n < l₁.length
  · rw [getElem?_eq_readSlot _ _ hn, getElem?_eq_readSlot _ _ (hlen ▸ hn), h n hn]
  · rw [List.getElem?_eq_none (by omega), List.getElem?_eq_none (by omega)]

theorem length_Allocate (T : Type) (n : Nat) : (Allocate T n).length = n :=
  List.length_replicate n none

theorem readSlot_Allocate (T : Type) (n j : Nat) : readSlot (Allocate T n) j = none := by
  simp only [Allocate, readSlot, List.getD_eq_getElem?_getD, List.getElem?_replicate]
  split <;> rfl

theorem length_destroyN (l : RawMemory T) (off n : Nat) :
    (destroyN l off n).length = l.length := by
  induction n generalizing l off with
  | zero => rfl
  | succ n ih => rw [destroyN, ih, length_writeSlot]

theorem readSlot_destroyN (l : RawMemory T) (off n j : Nat) :
    readSlot (destroyN l off n) j =
      if off ≤ j ∧ j < off + n then none else readSlot l j := by
  induction n generalizing l off with
  | zero =>
    rw [destroyN, if_neg]
    omega
  | succ n ih =>
    rw [destroyN, ih, readSlot_writeSlot]
    by_cases h1 : off + 1 ≤ j ∧ j < off + 1 + n
    · rw [if_pos h1, if_pos (by omega)]
    · rw [if_neg h1]
      by_cases h2 : j = off ∧ j < l.length
      · rw [if_pos h2, if_pos (by omega)]
      · rw [if_neg h2]
        by_cases h3 : off ≤ j ∧ j < off + (n + 1)
        · rw [if_pos h3]
          have hj : j = off := by omega
          have hlen : l.length ≤ j := by
            rcases Nat.lt_or_ge j l.length with hlt | hge
            · exact absurd ⟨hj, hlt⟩ h2
            · exact hge
          exact readSlot_oob l hlen
        · rw [if_neg h3]

theorem length_valueConstructN (d : T) (l : RawMemory T) (off n : Nat) :
    (valueConstructN d l off n).length = l.length := by
  induction n generalizing l off with
  | zero => rfl
  | succ n ih => rw [valueConstructN, ih, length_writeSlot]

theorem readSlot_valueConstructN (d : T) (l : RawMemory T) (off n j : Nat)
    (h : off + n ≤ l.length) :
    readSlot (valueConstructN d l off n) j =
      if off ≤ j ∧ j < off + n then some d else readSlot l j := by
  induction n generalizing l off with
  | zero =>
    rw [valueConstructN, if_neg]
    omega
  | succ n ih =>
    rw [valueConstructN, ih _ _ (by rw [length_writeSlot]; omega), readSlot_writeSlot]
    by_cases h1 : off + 1 ≤ j ∧ j < off + 1 + n
    · rw [if_pos h1, if_pos (by omega)]
    · rw [if_neg h1]
      by_cases h2 : j = off
      · rw [if_pos ⟨h2, by omega⟩, if_pos (by omega)]
      · rw [if_neg (fun hc : j = off ∧ j < l.length => h2 hc.1), if_neg (by omega)]

theorem length_transferN (src : RawMemory T) (a : Nat) (dst : RawMemory T) (b n : Nat) :
    (transferN src a dst b n).length = dst.length := by
  induction n generalizing a dst b with
  | zero => rfl
  | succ n ih => rw [transferN, ih, length_writeSlot]

theorem readSlot_transferN (src : RawMemory T) (a : Nat) (dst : RawMemory T) (b n j : Nat)
    (h : b + n ≤ dst.length) :
    readSlot (transferN src a dst b n) j =
      if b ≤ j ∧ j < b + n then readSlot src (a + (j - b)) else readSlot dst j := by
  induction n generalizing a dst b with
  | zero =>
    rw [transferN, if_neg]
    omega
  | succ n ih =>
    rw [transferN, ih _ _ _ (by rw [length_writeSlot]; omega), readSlot_writeSlot]
    by_cases h1 : b + 1 ≤ j ∧ j < b + 1 + n
    · rw [if_pos h1, if_pos (by omega)]
      have : a + 1 + (j - (b + 1)) = a + (j - b) := by omega
      rw [this]
    · rw [if_neg h1]
      by_cases h2 : j = b
      · rw [if_pos ⟨h2, by omega⟩, if_pos (by omega)]
        subst h2
        have : a + (j - j) = a := by omega
        rw [this]
      · rw [if_neg (fun hc : j = b ∧ j < dst.length => h2 hc.1), if_neg (by omega)]

theorem length_moveLeftN (l : RawMemory T) (k n : Nat) :
    (moveLeftN l k n).length = l.length := by
  induction n generalizing l k with
  | zero => rfl
  | succ n ih => rw [moveLeftN, ih, length_writeSlot]

theorem readSlot_moveLeftN (l : RawMemory T) (k n j : Nat) (h : k + n ≤ l.length) :
    readSlot (moveLeftN l k n) j =
      if k ≤ j ∧ j < k + n then readSlot l (j + 1) else readSlot l j := by
  induction n generalizing l k with
  | zero =>
    rw [moveLeftN, if_neg]
    omega
  | succ n ih =>
    rw [moveLeftN, ih _ _ (by rw [length_writeSlot]; omega)]
    by_cases h1 : k + 1 ≤ j ∧ j < k + 1 + n
    · rw [if_pos h1, if_pos (by omega), readSlot_writeSlot,
        if_neg (fun hc : j + 1 = k ∧ j + 1 < l.length => by omega)]
    · rw [if_neg h1, readSlot_writeSlot]
      by_cases h2 : j = k
      · rw [if_pos ⟨h2, by omega⟩, if_pos (by omega), h2]
      · rw [if_neg (fun hc : j = k ∧ j < l.length => h2 hc.1), if_neg (by omega)]

theorem length_moveBackwardN (l : RawMemory T) (last dlast n : Nat) :
    (moveBackwardN l last dlast n).length = l.length := by
  induction n generalizing l last dlast with
  | zero => rfl
  | succ n ih => rw [moveBackwardN, ih, length_writeSlot]

theorem readSlot_moveBackwardN (l : RawMemory T) (last n j : Nat)
    (hn : n ≤ last) (hl : last < l.length) :
    readSlot (moveBackwardN l last (last + 1) n) j =
      if last - n < j ∧ j ≤ last then readSlot l (j - 1) else readSlot l j := by
  induction n generalizing l last with
  | zero =>
    rw [moveBackwardN, if_neg]
    omega
  | succ n ih =>
    rw [moveBackwardN]
    have hstep : last + 1 - 1 = last := by omega
    have hlast : last - 1 + 1 = last := by omega
    rw [hstep]
    rw [show moveBackwardN (writeSlot l last (readSlot l (last - 1))) (last - 1) last n
        = moveBackwardN (writeSlot l last (readSlot l (last - 1))) (last - 1) (last - 1 + 1) n
      by rw [hlast]]
    rw [ih _ _ (by omega) (by rw [length_writeSlot]; omega)]
    by_cases h1 : last - 1 - n < j ∧ j ≤ last - 1
    · rw [if_pos h1, if_pos (by omega), readSlot_writeSlot,
        if_neg (fun hc : j - 1 = last ∧ j - 1 < l.length => by omega)]
    · rw [if_neg h1, readSlot_writeSlot]
      by_cases h2 : j = last
      · rw [if_pos ⟨h2, by omega⟩, if_pos (by omega), h2]
      · rw [if_neg (fun hc : j = last ∧ j < l.length => h2 hc.1), if_neg (by omega)]

theorem readSlot_moveBackwardN' (l : RawMemory T) (last dlast n j : Nat)
    (hd : dlast = last + 1) (hn : n ≤ last) (hl : last < l.length) :
    readSlot (moveBackwardN l last dlast n) j =
      if last - n < j ∧ j ≤ last then readSlot l (j - 1) else readSlot l j := by
  subst hd
  exact readSlot_moveBackwardN l last n j hn hl

/-! ### Operation-level facts -/

theorem readSlot_none_of_inv {v : Vector T} (hinv : Inv v) {j : Nat} (hj : v.size_ ≤ j) :
    readSlot v.data_ j = none := by
  rcases h : readSlot v.data_ j with _ | x
  · rfl
  · have : j < v.size_ := (hinv.2 j).mp (by rw [h]; rfl)
    omega

theorem inv_of_pointwise (v : Vector T) (hsc : v.size_ ≤ v.Capacity)
    (hlive : ∀ i, i < v.size_ → (readSlot v.data_ i).isSome)
    (hdead : ∀ i, v.size_ ≤ i → readSlot v.data_ i = none) : Inv v := by
  refine ⟨hsc, fun i => ⟨fun h => ?_, fun h => hlive i h⟩⟩
  by_contra hc
  rw [hdead i (by omega)] at h
  simp at h

theorem Capacity_def (v : Vector T) : v.Capacity = v.data_.length := rfl

theorem EmplaceBack_eq_PushBack (v : Vector T) (x : T) :
    v.EmplaceBack x = v.PushBack x := rfl

theorem Insert_eq_Emplace (v : Vector T) (k : Nat) (x : T) :
    v.Insert k x = v.Emplace k x := rfl

theorem Size_PushBack (v : Vector T) (x : T) : (v.PushBack x).size_ = v.size_ + 1 := by
  simp only [Vector.PushBack]
  split <;> rfl

theorem Capacity_PushBack_room (v : Vector T) (x : T) (h : ¬ v.size_ = v.Capacity) :
    (v.PushBack x).Capacity = v.Capacity := by
  rw [Capacity_def] at h
  simp only [Vector.PushBack, Vector.Capacity, if_neg h]
  exact length_writeSlot _ _ _

theorem Capacity_PushBack_grow (v : Vector T) (x : T) (h : v.size_ = v.Capacity) :
    (v.PushBack x).Capacity = if v.size_ = 0 then 1 else v.size_ * 2 := by
  rw [Capacity_def] at h
  simp only [Vector.PushBack, Vector.Capacity, if_pos h]
  rw [length_transferN, length_writeSlot, length_Allocate]

theorem readSlot_PushBack (v : Vector T) (x : T) (hc : v.size_ ≤ v.Capacity)
    (j : Nat) (hj : j ≤ v.size_) :
    readSlot (v.PushBack x).data_ j =
      if j = v.size_ then some x else readSlot v.data_ j := by
  rw [Capacity_def] at hc
  simp only [Vector.PushBack, Vector.Capacity]
  by_cases h : v.size_ = v.data_.length
  · rw [if_pos h]
    have hcap : v.size_ + 1 ≤ (if v.size_ = 0 then 1 else v.size_ * 2) := by
      split <;> omega
    rw [readSlot_transferN _ _ _ _ _ _ (by rw [length_writeSlot, length_Allocate]; omega)]
    by_cases h1 : j < v.size_
    · rw [if_pos ⟨by omega, by omega⟩]
      have harith : 0 + (j - 0) = j := by omega
      rw [harith, if_neg (by omega)]
    · have hj' : j = v.size_ := by omega
      rw [if_neg (by omega), readSlot_writeSlot,
        if_pos ⟨hj', by rw [length_Allocate]; omega⟩, if_pos hj']
  · rw [if_neg h, readSlot_writeSlot]
    by_cases h1 : j = v.size_
    · rw [if_pos ⟨h1, by omega⟩, if_pos h1]
    · rw [if_neg (by omega : ¬(j = v.size_ ∧ j < v.data_.length)), if_neg h1]

theorem readSlot_PushBack_high (v : Vector T) (x : T) (hinv : Inv v)
    (j : Nat) (hj : v.size_ < j) :
    readSlot (v.PushBack x).data_ j = none := by
  have hc := hinv.1
  rw [Capacity_def] at hc
  simp only [Vector.PushBack, Vector.Capacity]
  by_cases h : v.size_ = v.data_.length
  · rw [if_pos h,
      readSlot_transferN _ _ _ _ _ _
        (by rw [length_writeSlot, length_Allocate]
            have : v.size_ + 1 ≤ (if v.size_ = 0 then 1 else v.size_ * 2) := by split <;> omega
            omega),
      if_neg (by omega), readSlot_writeSlot, if_neg (by omega), readSlot_Allocate]
  · rw [if_neg h, readSlot_writeSlot, if_neg (by omega),
      readSlot_none_of_inv hinv (by omega)]

theorem Size_Emplace (v : Vector T) (k : Nat) (x : T) :
    (v.Emplace k x).size_ = v.size_ + 1 := by
  simp only [Vector.Emplace]
  split
  · rfl
  · split <;> rfl

theorem Capacity_Emplace_room (v : Vector T) (k : Nat) (x : T) (h : ¬ v.size_ = v.Capacity) :
    (v.Emplace k x).Capacity = v.Capacity := by
  rw [Capacity_def] at h
  simp only [Vector.Emplace, Vector.Capacity, if_neg h]
  split
  · exact length_writeSlot _ _ _
  · rw [length_writeSlot, length_moveBackwardN, length_writeSlot]

theorem Capacity_Emplace_grow (v : Vector T) (k : Nat) (x : T) (h : v.size_ = v.Capacity) :
    (v.Emplace k x).Capacity = if v.size_ = 0 then 1 else 2 * v.size_ := by
  rw [Capacity_def] at h
  simp only [Vector.Emplace, Vector.Capacity, if_pos h]
  rw [length_transferN, length_transferN, length_writeSlot, length_Allocate]

theorem readSlot_Emplace (v : Vector T) (k : Nat) (x : T)
    (hk : k ≤ v.size_) (hc : v.size_ ≤ v.Capacity) (j : Nat) (hj : j ≤ v.size_) :
    readSlot (v.Emplace k x).data_ j =
      if j < k then readSlot v.data_ j
      else if j = k then some x
      else readSlot v.data_ (j - 1) := by
  rw [Capacity_def] at hc
  simp only [Vector.Emplace, Vector.Capacity]
  by_cases h : v.size_ = v.data_.length
  · rw [if_pos h]
    have hcap : v.size_ + 1 ≤ (if v.size_ = 0 then 1 else 2 * v.size_) := by
      split <;> omega
    have hlen1 : (writeSlot (Allocate T (if v.size_ = 0 then 1 else 2 * v.size_)) k
        (some x)).length = (if v.size_ = 0 then 1 else 2 * v.size_) := by
      rw [length_writeSlot, length_Allocate]
    rw [readSlot_transferN _ _ _ _ _ _ (by rw [length_transferN, hlen1]; omega)]
    by_cases h1 : k + 1 ≤ j ∧ j < k + 1 + (v.size_ - k)
    · rw [if_pos h1]
      have harith : k + (j - (k + 1)) = j - 1 := by omega
      rw [harith, if_neg (by omega), if_neg (by omega)]
    · rw [if_neg h1,
        readSlot_transferN _ _ _ _ _ _ (by rw [hlen1]; omega)]
      by_cases h2 : j < k
      · rw [if_pos ⟨by omega, by omega⟩]
        have harith : 0 + (j - 0) = j := by omega
        rw [harith, if_pos h2]
      · have hjk : j = k := by omega
        rw [if_neg (by omega), readSlot_writeSlot,
          if_pos ⟨hjk, by rw [length_Allocate]; omega⟩, if_neg (by omega), if_pos hjk]
  · rw [if_neg h]
    by_cases hke : k = v.size_
    · rw [if_pos hke, readSlot_writeSlot]
      by_cases h1 : j = v.size_
      · rw [if_pos ⟨h1, by omega⟩, if_neg (by omega), if_pos (by omega)]
      · rw [if_neg (by omega), if_pos (by omega)]
    · rw [if_neg hke]
      have hks : k < v.size_ := by omega
      have hsc : v.size_ < v.data_.length := by omega
      rw [readSlot_writeSlot]
      by_cases h1 : j = k
      · rw [if_pos ⟨h1, by rw [length_moveBackwardN, length_writeSlot]; omega⟩,
          if_neg (by omega), if_pos h1]
      · rw [if_neg (by omega),
          readSlot_moveBackwardN' _ _ _ _ _ (by omega) (by omega)
            (by rw [length_writeSlot]; omega)]
        by_cases h2 : v.size_ - 1 - (v.size_ - 1 - k) < j ∧ j ≤ v.size_ - 1
        · rw [if_pos h2, readSlot_writeSlot, if_neg (by omega),
            if_neg (by omega), if_neg (by omega)]
        · rw [if_neg h2, readSlot_writeSlot]
          by_cases h3 : j = v.size_
          · rw [if_pos ⟨h3, by omega⟩, if_neg (by omega), if_neg (by omega), h3]
          · rw [if_neg (by omega), if_pos (by omega)]

theorem readSlot_Emplace_high (v : Vector T) (k : Nat) (x : T)
    (hk : k ≤ v.size_) (hinv : Inv v) (j : Nat) (hj : v.size_ < j) :
    readSlot (v.Emplace k x).data_ j = none := by
  have hc := hinv.1
  rw [Capacity_def] at hc
  simp only [Vector.Emplace, Vector.Capacity]
  by_cases h : v.size_ = v.data_.length
  · rw [if_pos h]
    have hcap : v.size_ + 1 ≤ (if v.size_ = 0 then 1 else 2 * v.size_) := by
      split <;> omega
    have hlen1 : (writeSlot (Allocate T (if v.size_ = 0 then 1 else 2 * v.size_)) k
        (some x)).length = (if v.size_ = 0 then 1 else 2 * v.size_) := by
      rw [length_writeSlot, length_Allocate]
    rw [readSlot_transferN _ _ _ _ _ _ (by rw [length_transferN, hlen1]; omega),
      if_neg (by omega),
      readSlot_transferN _ _ _ _ _ _ (by rw [hlen1]; omega),
      if_neg (by omega), readSlot_writeSlot, if_neg (by omega), readSlot_Allocate]
  · rw [if_neg h]
    by_cases hke : k = v.size_
    · rw [if_pos hke, readSlot_writeSlot, if_neg (by omega),
        readSlot_none_of_inv hinv (by omega)]
    · have hks : k < v.size_ := by omega
      rw [if_neg hke, readSlot_writeSlot, if_neg (by omega),
        readSlot_moveBackwardN' _ _ _ _ _ (by omega) (by omega)
          (by rw [length_writeSlot]; omega),
        if_neg (by omega), readSlot_writeSlot, if_neg (by omega),
        readSlot_none_of_inv hinv (by omega)]

theorem Size_Erase (v : Vector T) (k : Nat) : (v.Erase k).size_ = v.size_ - 1 := rfl

theorem Capacity_Erase (v : Vector T) (k : Nat) : (v.Erase k).Capacity = v.Capacity := by
  simp only [Vector.Erase, Vector.Capacity]
  rw [length_destroyN, length_moveLeftN]

theorem readSlot_Erase (v : Vector T) (k : Nat)
    (hk : k < v.size_) (hc : v.size_ ≤ v.Capacity) (j : Nat) (hj : j < v.size_ - 1) :
    readSlot (v.Erase k).data_ j =
      if j < k then readSlot v.data_ j else readSlot v.data_ (j + 1) := by
  rw [Capacity_def] at hc
  simp only [Vector.Erase]
  rw [readSlot_destroyN, if_neg (by omega),
    readSlot_moveLeftN _ _ _ _ (by omega)]
  by_cases h1 : j < k
  · rw [if_neg (by omega), if_pos h1]
  · rw [if_pos ⟨by omega, by omega⟩, if_neg h1]

theorem readSlot_Erase_high (v : Vector T) (k : Nat)
    (hk : k < v.size_) (hinv : Inv v) (j : Nat) (hj : v.size_ - 1 ≤ j) :
    readSlot (v.Erase k).data_ j = none := by
  simp only [Vector.Erase]
  have hc : v.size_ ≤ v.Capacity := hinv.1
  rw [Capacity_def] at hc
  rw [readSlot_destroyN]
  by_cases h1 : j = v.size_ - 1
  · rw [if_pos (by omega)]
  · rw [if_neg (by omega),
      readSlot_moveLeftN _ _ _ _ (by omega),
      if_neg (by omega), readSlot_none_of_inv hinv (by omega)]

theorem Size_Reserve (v : Vector T) (n : Nat) : (v.Reserve n).size_ = v.size_ := by
  simp only [Vector.Reserve]
  split <;> rfl

theorem Capacity_Reserve (v : Vector T) (n : Nat) :
    (v.Reserve n).Capacity = if n ≤ v.Capacity then v.Capacity else n := by
  simp only [Vector.Capacity]
  by_cases hn : n ≤ v.data_.length
  · simp only [Vector.Reserve, Vector.Capacity, if_pos hn]
  · simp only [Vector.Reserve, Vector.Capacity, if_neg hn]
    rw [length_transferN, length_Allocate]

theorem readSlot_Reserve (v : Vector T) (n : Nat) (hc : v.size_ ≤ v.Capacity)
    (j : Nat) (hj : j < v.size_) :
    readSlot (v.Reserve n).data_ j = readSlot v.data_ j := by
  simp only [Vector.Reserve]
  by_cases hn : n ≤ v.Capacity
  · rw [if_pos hn]
  · rw [if_neg hn]
    rw [Capacity_def] at hc hn
    rw [readSlot_transferN _ _ _ _ _ _ (by rw [length_Allocate]; omega),
      if_pos ⟨by omega, by omega⟩]
    have harith : 0 + (j - 0) = j := by omega
    rw [harith]

theorem readSlot_Reserve_high (v : Vector T) (n : Nat) (hinv : Inv v)
    (j : Nat) (hj : v.size_ ≤ j) :
    readSlot (v.Reserve n).data_ j = none := by
  simp only [Vector.Reserve]
  by_cases hn : n ≤ v.Capacity
  · rw [if_pos hn]
    exact readSlot_none_of_inv hinv hj
  · rw [if_neg hn]
    have hc := hinv.1
    rw [Capacity_def] at hc hn
    rw [readSlot_transferN _ _ _ _ _ _ (by rw [length_Allocate]; omega),
      if_neg (by omega), readSlot_Allocate]

theorem Size_Resize (v : Vector T) (d : T) (n : Nat) : (v.Resize d n).size_ = n := by
  simp only [Vector.Resize]
  split <;> rfl

theorem Capacity_Reserve_ge (v : Vector T) (n : Nat) :
    n ≤ (v.Reserve n).Capacity := by
  rw [Capacity_Reserve]
  split <;> omega

theorem readSlot_Resize_le (v : Vector T) (d : T) (n : Nat) (h : n ≤ v.size_) (j : Nat) :
    readSlot (v.Resize d n).data_ j =
      if n ≤ j ∧ j < v.size_ then none else readSlot v.data_ j := by
  simp only [Vector.Resize, if_pos h]
  rw [readSlot_destroyN]
  have harith : n + (v.size_ - n) = v.size_ := by omega
  rw [harith]

theorem readSlot_Resize_grow (v : Vector T) (d : T) (n : Nat) (hgt : ¬ n ≤ v.size_)
    (hc : v.size_ ≤ v.Capacity) (j : Nat) :
    readSlot (v.Resize d n).data_ j =
      if v.size_ ≤ j ∧ j < n then some d
      else if j < v.size_ then readSlot v.data_ j
      else readSlot (v.Reserve n).data_ j := by
  simp only [Vector.Resize, if_neg hgt]
  rw [Size_Reserve]
  have hrc : n ≤ (v.Reserve n).data_.length := by
    have h1 := Capacity_Reserve_ge v n
    rw [Capacity_def] at h1
    exact h1
  rw [readSlot_valueConstructN _ _ _ _ _ (by omega)]
  by_cases h1 : v.size_ ≤ j ∧ j < v.size_ + (n - v.size_)
  · rw [if_pos h1, if_pos (by omega)]
  · rw [if_neg h1, if_neg (by omega)]
    by_cases h2 : j < v.size_
    · rw [if_pos h2, readSlot_Reserve v n hc j h2]
    · rw [if_neg h2]

theorem Size_mkSized (d : T) (n : Nat) : (Vector.mkSized d n : Vector T).size_ = n := rfl

theorem Capacity_mkSized (d : T) (n : Nat) :
    (Vector.mkSized d n : Vector T).Capacity = n := by
  simp only [Vector.mkSized, Vector.Capacity]
  rw [length_valueConstructN, length_Allocate]

theorem readSlot_mkSized (d : T) (n j : Nat) :
    readSlot (Vector.mkSized d n : Vector T).data_ j = if j < n then some d else none := by
  simp only [Vector.mkSized]
  rw [readSlot_valueConstructN _ _ _ _ _ (by rw [length_Allocate]; omega)]
  by_cases h1 : j < n
  · rw [if_pos ⟨by omega, by omega⟩, if_pos h1]
  · rw [if_neg (by omega), if_neg h1, readSlot_Allocate]

theorem Size_copyConstruct (v : Vector T) : (Vector.copyConstruct v).size_ = v.size_ := rfl

theorem Capacity_copyConstruct (v : Vector T) :
    (Vector.copyConstruct v).Capacity = v.size_ := by
  simp only [Vector.copyConstruct, Vector.Capacity]
  rw [length_transferN, length_Allocate]

theorem readSlot_copyConstruct (v : Vector T) (j : Nat) (hj : j < v.size_) :
    readSlot (Vector.copyConstruct v).data_ j = readSlot v.data_ j := by
  simp only [Vector.copyConstruct]
  rw [readSlot_transferN _ _ _ _ _ _ (by rw [length_Allocate]; omega),
    if_pos ⟨by omega, by omega⟩]
  have harith : 0 + (j - 0) = j := by omega
  rw [harith]

theorem readSlot_copyConstruct_high (v : Vector T) (j : Nat) (hj : v.size_ ≤ j) :
    readSlot (Vector.copyConstruct v).data_ j = none := by
  simp only [Vector.copyConstruct]
  rw [readSlot_transferN _ _ _ _ _ _ (by rw [length_Allocate]; omega),
    if_neg (by omega), readSlot_Allocate]

theorem Size_assignCopyBody (b a : Vector T) :
    (Vector.assignCopyBody b a).size_ = a.size_ := by
  simp only [Vector.assignCopyBody]
  split
  · rfl
  · split <;> rfl

theorem readSlot_assignCopyBody (b a : Vector T) (j : Nat) (hj : j < a.size_) :
    readSlot (Vector.assignCopyBody b a).data_ j = readSlot a.data_ j := by
  simp only [Vector.assignCopyBody]
  by_cases h1 : a.size_ > b.Capacity
  · rw [if_pos h1]
    exact readSlot_copyConstruct a j hj
  · rw [if_neg h1]
    rw [Capacity_def] at h1
    by_cases h2 : a.size_ < b.size_
    · rw [if_pos h2, readSlot_destroyN, if_neg (by omega),
        readSlot_transferN _ _ _ _ _ _ (by omega), if_pos ⟨by omega, by omega⟩]
      have harith : 0 + (j - 0) = j := by omega
      rw [harith]
    · rw [if_neg h2,
        readSlot_transferN _ _ _ _ _ _ (by rw [length_transferN]; omega)]
      by_cases h3 : b.size_ ≤ j ∧ j < b.size_ + (a.size_ - b.size_)
      · rw [if_pos h3]
        have harith : b.size_ + (j - b.size_) = j := by omega
        rw [harith]
      · rw [if_neg h3,
          readSlot_transferN _ _ _ _ _ _ (by omega), if_pos ⟨by omega, by omega⟩]
        have harith : 0 + (j - 0) = j := by omega
        rw [harith]

theorem readSlot_assignCopyBody_high (b a : Vector T) (hb : Inv b)
    (j : Nat) (hj : a.size_ ≤ j) :
    readSlot (Vector.assignCopyBody b a).data_ j = none := by
  simp only [Vector.assignCopyBody]
  by_cases h1 : a.size_ > b.Capacity
  · rw [if_pos h1]
    exact readSlot_copyConstruct_high a j hj
  · rw [if_neg h1]
    have hbc := hb.1
    rw [Capacity_def] at h1 hbc
    by_cases h2 : a.size_ < b.size_
    · rw [if_pos h2, readSlot_destroyN]
      by_cases h3 : a.size_ ≤ j ∧ j < a.size_ + (b.size_ - a.size_)
      · rw [if_pos h3]
      · rw [if_neg h3, readSlot_transferN _ _ _ _ _ _ (by omega),
          if_neg (by omega), readSlot_none_of_inv hb (by omega)]
    · rw [if_neg h2,
        readSlot_transferN _ _ _ _ _ _ (by rw [length_transferN]; omega),
        if_neg (by omega),
        readSlot_transferN _ _ _ _ _ _ (by omega), if_neg (by omega),
        readSlot_none_of_inv hb (by omega)]

/-! ### The observable contents -/

theorem length_contents (v : Vector T) : v.contents.length = v.size_ := by
  simp only [Vector.contents, List.length_map, List.length_range]

theorem contents_getElem? (v : Vector T) (j : Nat) :
    v.contents[j]? = if j < v.size_ then some (readSlot v.data_ j) else none := by
  simp only [Vector.contents]
  rw [List.getElem?_map]
  by_cases hj : j < v.size_
  · rw [List.getElem?_range hj, if_pos hj]
    rfl
  · rw [List.getElem?_eq_none (by rw [List.length_range]; omega), if_neg hj]
    rfl

theorem insertList_getElem? {α : Type} (l : List α) (k : Nat) (x : α)
    (hk : k ≤ l.length) (j : Nat) :
    (l.take k ++ x :: l.drop k)[j]? =
      if j < k then l[j]? else if j = k then some x else l[j - 1]? := by
  have hlen : (l.take k).length = k := by rw [List.length_take]; omega
  rw [List.getElem?_append, hlen]
  by_cases h1 : j < k
  · rw [if_pos h1, if_pos h1, List.getElem?_take, if_pos h1]
  · rw [if_neg h1, if_neg h1]
    by_cases h2 : j = k
    · subst h2
      rw [if_pos rfl, Nat.sub_self, List.getElem?_cons_zero]
    · rw [if_neg h2]
      have h3 : j - k = (j - k - 1) + 1 := by omega
      rw [h3, List.getElem?_cons_succ, List.getElem?_drop]
      congr 1
      omega

theorem eraseList_getElem? {α : Type} (l : List α) (k : Nat)
    (hk : k < l.length) (j : Nat) :
    (l.take k ++ l.drop (k + 1))[j]? = if j < k then l[j]? else l[j + 1]? := by
  have hlen : (l.take k).length = k := by rw [List.length_take]; omega
  rw [List.getElem?_append, hlen]
  by_cases h1 : j < k
  · rw [if_pos h1, if_pos h1, List.getElem?_take, if_pos h1]
  · rw [if_neg h1, if_neg h1, List.getElem?_drop]
    congr 1
    omega

theorem padList_getElem? {α : Type} (l : List α) (m r : Nat) (y : α)
    (hm : m ≤ l.length) (j : Nat) :
    (l.take m ++ List.replicate r y)[j]? =
      if j < m then l[j]? else if j < m + r then some y else none := by
  have hlen : (l.take m).length = m := by rw [List.length_take]; omega
  rw [List.getElem?_append, hlen]
  by_cases h1 : j < m
  · rw [if_pos h1, if_pos h1, List.getElem?_take, if_pos h1]
  · rw [if_neg h1, if_neg h1, List.getElem?_replicate]
    by_cases h2 : j < m + r
    · rw [if_pos (by omega), if_pos h2]
    · rw [if_neg (by omega), if_neg h2]

/-! ### Invariant preservation -/

theorem inv_mkDefault : Inv (Vector.mkDefault : Vector T) := by
  refine ⟨Nat.le_refl 0, fun i => ?_⟩
  simp only [Vector.mkDefault, readSlot, List.getD_eq_getElem?_getD, List.getElem?_nil]
  simp

theorem inv_mkSized (d : T) (n : Nat) : Inv (Vector.mkSized d n : Vector T) := by
  apply inv_of_pointwise
  · rw [Size_mkSized, Capacity_mkSized]
  · intro i hi
    rw [Size_mkSized] at hi
    rw [readSlot_mkSized, if_pos hi]
    rfl
  · intro i hi
    rw [Size_mkSized] at hi
    rw [readSlot_mkSized, if_neg (by omega)]

theorem inv_copyConstruct (v : Vector T) (hv : Inv v) : Inv (Vector.copyConstruct v) := by
  apply inv_of_pointwise
  · rw [Size_copyConstruct, Capacity_copyConstruct]
  · intro i hi
    rw [Size_copyConstruct] at hi
    rw [readSlot_copyConstruct v i hi]
    exact (hv.2 i).mpr hi
  · intro i hi
    rw [Size_copyConstruct] at hi
    exact readSlot_copyConstruct_high v i hi

theorem inv_moveConstructFst (v : Vector T) (hv : Inv v) :
    Inv (Vector.moveConstruct v).1 := hv

theorem inv_moveConstructSnd (v : Vector T) : Inv (Vector.moveConstruct v).2 :=
  inv_mkDefault

theorem inv_assignMoveFst (b a : Vector T) (ha : Inv a) : Inv (b.assignMove a).1 := ha

theorem inv_assignMoveSnd (b a : Vector T) : Inv (b.assignMove a).2 := inv_mkDefault

theorem inv_SwapWithFst (a b : Vector T) (hb : Inv b) : Inv (a.SwapWith b).1 := hb

theorem inv_SwapWithSnd (a b : Vector T) (ha : Inv a) : Inv (a.SwapWith b).2 := ha

theorem Capacity_assignCopyBody_ge (b a : Vector T) :
    a.size_ ≤ (Vector.assignCopyBody b a).Capacity := by
  by_cases h1 : a.size_ > b.Capacity
  · simp only [Vector.assignCopyBody, if_pos h1, Capacity_copyConstruct]
    omega
  · rw [Capacity_def] at h1
    by_cases h2 : a.size_ < b.size_
    · simp only [Vector.assignCopyBody, Vector.Capacity, if_neg h1, if_pos h2]
      rw [length_destroyN, length_transferN]
      omega
    · simp only [Vector.assignCopyBody, Vector.Capacity, if_neg h1, if_neg h2]
      rw [length_transferN, length_transferN]
      omega

theorem inv_assignCopy (b a : Vector T) (s : Bool) (hb : Inv b) (ha : Inv a) :
    Inv (b.assignCopy a s) := by
  simp only [Vector.assignCopy]
  split
  · exact hb
  · apply inv_of_pointwise
    · rw [Size_assignCopyBody]
      exact Capacity_assignCopyBody_ge b a
    · intro i hi
      rw [Size_assignCopyBody] at hi
      rw [readSlot_assignCopyBody b a i hi]
      exact (ha.2 i).mpr hi
    · intro i hi
      rw [Size_assignCopyBody] at hi
      exact readSlot_assignCopyBody_high b a hb i hi

theorem inv_Reserve (v : Vector T) (n : Nat) (hv : Inv v) : Inv (v.Reserve n) := by
  apply inv_of_pointwise
  · rw [Size_Reserve, Capacity_Reserve]
    have h1 := hv.1
    split <;> omega
  · intro i hi
    rw [Size_Reserve] at hi
    rw [readSlot_Reserve v n hv.1 i hi]
    exact (hv.2 i).mpr hi
  · intro i hi
    rw [Size_Reserve] at hi
    exact readSlot_Reserve_high v n hv i hi

theorem inv_Resize (v : Vector T) (d : T) (n : Nat) (hv : Inv v) : Inv (v.Resize d n) := by
  apply inv_of_pointwise
  · rw [Size_Resize]
    by_cases h1 : n ≤ v.size_
    · simp only [Vector.Resize, Vector.Capacity, if_pos h1]
      rw [length_destroyN]
      have h2 := hv.1
      rw [Capacity_def] at h2
      omega
    · simp only [Vector.Resize, Vector.Capacity, if_neg h1]
      rw [length_valueConstructN]
      have h2 := Capacity_Reserve_ge v n
      rw [Capacity_def] at h2
      exact h2
  · intro i hi
    rw [Size_Resize] at hi
    by_cases h1 : n ≤ v.size_
    · rw [readSlot_Resize_le v d n h1 i, if_neg (by omega)]
      exact (hv.2 i).mpr (by omega)
    · rw [readSlot_Resize_grow v d n h1 hv.1 i]
      by_cases h2 : v.size_ ≤ i ∧ i < n
      · rw [if_pos h2]
        rfl
      · rw [if_neg h2, if_pos (by omega)]
        exact (hv.2 i).mpr (by omega)
  · intro i hi
    rw [Size_Resize] at hi
    by_cases h1 : n ≤ v.size_
    · rw [readSlot_Resize_le v d n h1 i]
      by_cases h2 : n ≤ i ∧ i < v.size_
      · rw [if_pos h2]
      · rw [if_neg h2]
        exact readSlot_none_of_inv hv (by omega)
    · rw [readSlot_Resize_grow v d n h1 hv.1 i, if_neg (by omega), if_neg (by omega)]
      exact readSlot_Reserve_high v n hv i (by omega)

theorem inv_PushBack (v : Vector T) (x : T) (hv : Inv v) : Inv (v.PushBack x) := by
  apply inv_of_pointwise
  · rw [Size_PushBack]
    by_cases h : v.size_ = v.Capacity
    · rw [Capacity_PushBack_grow v x h]
      split <;> omega
    · rw [Capacity_PushBack_room v x h]
      have h1 := hv.1
      omega
  · intro i hi
    rw [Size_PushBack] at hi
    rw [readSlot_PushBack v x hv.1 i (by omega)]
    by_cases h1 : i = v.size_
    · rw [if_pos h1]
      rfl
    · rw [if_neg h1]
      exact (hv.2 i).mpr (by omega)
  · intro i hi
    rw [Size_PushBack] at hi
    exact readSlot_PushBack_high v x hv i (by omega)

theorem inv_EmplaceBack (v : Vector T) (x : T) (hv : Inv v) : Inv (v.EmplaceBack x) := by
  rw [EmplaceBack_eq_PushBack]
  exact inv_PushBack v x hv

theorem inv_PopBack (v : Vector T) (hv : Inv v) : Inv v.PopBack := by
  apply inv_of_pointwise
  · simp only [Vector.PopBack, Vector.Capacity]
    rw [length_destroyN]
    have h1 := hv.1
    rw [Capacity_def] at h1
    omega
  · intro i hi
    simp only [Vector.PopBack] at hi ⊢
    rw [readSlot_destroyN, if_neg (by omega)]
    exact (hv.2 i).mpr (by omega)
  · intro i hi
    simp only [Vector.PopBack] at hi ⊢
    rw [readSlot_destroyN]
    by_cases h1 : v.size_ - 1 ≤ i ∧ i < v.size_ - 1 + 1
    · rw [if_pos h1]
    · rw [if_neg h1]
      exact readSlot_none_of_inv hv (by omega)

theorem inv_Erase (v : Vector T) (k : Nat) (hk : k < v.size_) (hv : Inv v) :
    Inv (v.Erase k) := by
  apply inv_of_pointwise
  · rw [Size_Erase, Capacity_Erase]
    have h1 := hv.1
    omega
  · intro i hi
    rw [Size_Erase] at hi
    rw [readSlot_Erase v k hk hv.1 i hi]
    by_cases h1 : i < k
    · rw [if_pos h1]
      exact (hv.2 i).mpr (by omega)
    · rw [if_neg h1]
      exact (hv.2 (i + 1)).mpr (by omega)
  · intro i hi
    rw [Size_Erase] at hi
    exact readSlot_Erase_high v k hk hv i hi

theorem inv_Emplace (v : Vector T) (k : Nat) (x : T) (hk : k ≤ v.size_) (hv : Inv v) :
    Inv (v.Emplace k x) := by
  apply inv_of_pointwise
  · rw [Size_Emplace]
    by_cases h : v.size_ = v.Capacity
    · rw [Capacity_Emplace_grow v k x h]
      split <;> omega
    · rw [Capacity_Emplace_room v k x h]
      have h1 := hv.1
      omega
  · intro i hi
    rw [Size_Emplace] at hi
    rw [readSlot_Emplace v k x hk hv.1 i (by omega)]
    by_cases h1 : i < k
    · rw [if_pos h1]
      exact (hv.2 i).mpr (by omega)
    · rw [if_neg h1]
      by_cases h2 : i = k
      · rw [if_pos h2]
        rfl
      · rw [if_neg h2]
        exact (hv.2 (i - 1)).mpr (by omega)
  · intro i hi
    rw [Size_Emplace] at hi
    exact readSlot_Emplace_high v k x hk hv i (by omega)

theorem inv_Insert (v : Vector T) (k : Nat) (x : T) (hk : k ≤ v.size_) (hv : Inv v) :
    Inv (v.Insert k x) := by
  rw [Insert_eq_Emplace]
  exact inv_Emplace v k x hk hv

theorem inv_of_reachable {T : Type} {v : Vector T} (h : Reachable v) : Inv v := by
  induction h with
  | mkDefault => exact inv_mkDefault
  | mkSized d n => exact inv_mkSized d n
  | copyConstruct v _ ih => exact inv_copyConstruct v ih
  | moveConstructFst v _ ih => exact inv_moveConstructFst v ih
  | moveConstructSnd v _ _ => exact inv_moveConstructSnd v
  | assignCopySelf a _ ih => exact inv_assignCopy a a true ih ih
  | assignCopyOther b a _ _ ihb iha => exact inv_assignCopy b a false ihb iha
  | assignMoveFst b a _ _ _ iha => exact inv_assignMoveFst b a iha
  | assignMoveSnd b a _ _ _ _ => exact inv_assignMoveSnd b a
  | swapFst a b _ _ _ ihb => exact inv_SwapWithFst a b ihb
  | swapSnd a b _ _ iha _ => exact inv_SwapWithSnd a b iha
  | reserve v n _ ih => exact inv_Reserve v n ih
  | resize v d n _ ih => exact inv_Resize v d n ih
  | pushBack v x _ ih => exact inv_PushBack v x ih
  | emplaceBack v x _ ih => exact inv_EmplaceBack v x ih
  | popBack v _ ih => exact inv_PopBack v ih
  | erase v k hk _ ih => exact inv_Erase v k hk ih
  | emplace v k x hk _ ih => exact inv_Emplace v k x hk ih
  | insert v k x hk _ ih => exact inv_Insert v k x hk ih

/-! ### Helper facts for the growth-policy and resize claims -/

theorem Size_pushRepeat (x : T) (n : Nat) : (Vector.pushRepeat x n).size_ = n := by
  induction n with
  | zero => rfl
  | succ m ih =>
    show ((Vector.pushRepeat x m).PushBack x).size_ = m + 1
    rw [Size_PushBack, ih]

theorem pushRepeat_capacity_pow (x : T) :
    ∀ n, 1 ≤ n →
      ∃ k, (Vector.pushRepeat x n).Capacity = 2 ^ k ∧ n ≤ 2 ^ k ∧ 2 ^ k < 2 * n := by
  intro n
  induction n with
  | zero => intro h; omega
  | succ m ih =>
    intro _
    by_cases hm : m = 0
    · subst hm
      refine ⟨0, ?_, by omega, by omega⟩
      show ((Vector.mkDefault : Vector T).PushBack x).Capacity = 2 ^ 0
      rw [Capacity_PushBack_grow _ _ rfl]
      rfl
    · obtain ⟨k, hcap, hle, hlt⟩ := ih (by omega)
      by_cases hfull : (Vector.pushRepeat x m).size_ = (Vector.pushRepeat x m).Capacity
      · have hm2 : m = 2 ^ k := by
          rw [Size_pushRepeat x m, hcap] at hfull
          exact hfull
        have hp : (2 : Nat) ^ (k + 1) = 2 ^ k * 2 := pow_succ 2 k
        refine ⟨k + 1, ?_, by omega, by omega⟩
        show ((Vector.pushRepeat x m).PushBack x).Capacity = 2 ^ (k + 1)
        rw [Capacity_PushBack_grow _ _ hfull, Size_pushRepeat, if_neg hm]
        omega
      · have hlt2 : m < 2 ^ k := by
          rw [Size_pushRepeat x m, hcap] at hfull
          omega
        refine ⟨k, ?_, by omega, by omega⟩
        show ((Vector.pushRepeat x m).PushBack x).Capacity = 2 ^ k
        rw [Capacity_PushBack_room _ _ hfull]
        exact hcap

theorem Resize_self (v : Vector T) (d : T) : v.Resize d v.size_ = v := by
  simp only [Vector.Resize, if_pos (Nat.le_refl v.size_)]
  rw [Nat.sub_self]
  rfl

/-! ### The claims -/

/-- C1: during `PushBack`, `EmplaceBack` and `Insert`/`Emplace`, the new
element is constructed before anything else is mutated; if its construction
throws (`mkNew = none`), the error carries exactly the pre-call vector — same
size, capacity and slot values — and the freshly allocated buffer (when the
growth path allocated one) holds no constructed object when it is freed. -/
theorem pushback_emplace_unchanged_on_ctor_throw (T : Type) (tryCopy : T → Option T)
    (v : Vector T) (k : Nat) :
    (∃ lb, Vector.PushBackFallible tryCopy none v = Except.error (v, lb) ∧
      ∀ s ∈ lb, s = none) ∧
    (∃ lb, Vector.EmplaceBackFallible tryCopy none v = Except.error (v, lb) ∧
      ∀ s ∈ lb, s = none) ∧
    (∃ lb, Vector.EmplaceFallible tryCopy none v k = Except.error (v, lb) ∧
      ∀ s ∈ lb, s = none) := by
  refine ⟨?_, ?_, ?_⟩
  · simp only [Vector.PushBackFallible]
    split
    · exact ⟨_, rfl, fun s hs => List.eq_of_mem_replicate hs⟩
    · exact ⟨[], rfl, fun s hs => absurd hs (List.not_mem_nil s)⟩
  · simp only [Vector.EmplaceBackFallible]
    split
    · exact ⟨_, rfl, fun s hs => List.eq_of_mem_replicate hs⟩
    · exact ⟨[], rfl, fun s hs => absurd hs (List.not_mem_nil s)⟩
  · simp only [Vector.EmplaceFallible]
    split
    · exact ⟨_, rfl, fun s hs => List.eq_of_mem_replicate hs⟩
    · split
      · exact ⟨[], rfl, fun s hs => absurd hs (List.not_mem_nil s)⟩
      · exact ⟨[], rfl, fun s hs => absurd hs (List.not_mem_nil s)⟩

/-- C2, counter-evidence at a concrete input: the vector `[1]` is full
(size 1 = capacity 1); `Emplace` at offset 0 grows, constructs the new element
(value 7) at slot 0 of the new buffer, and then the second transfer phase
throws while copying the old element.  The second catch handler destroys only
the `new_item_offset = 0` slots `[0, 0)` — it never destroys slot 0 itself —
so the new buffer is deallocated while slot 0 still holds the constructed new
element (it leaks), contradicting the claim that every object already
constructed in the new buffer, including the one at the insertion offset, is
destroyed before the failure is re-raised. -/
theorem emplace_grow_second_phase_leaks_new_element :
    Vector.EmplaceFallible (fun _ : Nat => none) (some 7) ⟨[some 1], 1⟩ 0
      = Except.error (⟨[some 1], 1⟩, [some 7, none]) ∧
    readSlot ([some 7, none] : RawMemory Nat) 0 = some 7 :=
  ⟨rfl, rfl⟩

/-- C3: inserting value `x` at index `k` of the held sequence via
`Emplace` (= `Insert`) yields the original first `k` slots, then `x`, then the
remaining slots, with the size increased by one, for every `k ≤ size` —
covering both the headroom path (`size < capacity`) and the growth path
(`size = capacity`). -/
theorem emplace_inserts_at_position (T : Type) (v : Vector T) (k : Nat) (x : T)
    (hk : k ≤ v.Size) (hc : v.Size ≤ v.Capacity) :
    (v.Emplace k x).Size = v.Size + 1 ∧
    (v.Emplace k x).contents = v.contents.take k ++ some x :: v.contents.drop k := by
  have hk' : k ≤ v.size_ := hk
  have hc' : v.size_ ≤ v.Capacity := hc
  refine ⟨Size_Emplace v k x, ?_⟩
  apply List.ext_getElem?
  intro j
  rw [contents_getElem?,
    insertList_getElem? v.contents k (some x) (by rw [length_contents]; exact hk') j,
    Size_Emplace]
  by_cases h1 : j < k
  · rw [if_pos (show j < v.size_ + 1 by omega),
      readSlot_Emplace v k x hk' hc' j (by omega), if_pos h1, if_pos h1,
      contents_getElem?, if_pos (show j < v.size_ by omega)]
  · by_cases h2 : j = k
    · rw [if_pos (show j < v.size_ + 1 by omega),
        readSlot_Emplace v k x hk' hc' j (by omega), if_neg h1, if_pos h2,
        if_neg h1, if_pos h2]
    · by_cases h3 : j < v.size_ + 1
      · rw [if_pos h3, readSlot_Emplace v k x hk' hc' j (by omega),
          if_neg h1, if_neg h2, if_neg h1, if_neg h2,
          contents_getElem?, if_pos (show j - 1 < v.size_ by omega)]
      · rw [if_neg h3, if_neg h1, if_neg h2,
          contents_getElem?, if_neg (show ¬(j - 1 < v.size_) by omega)]

theorem emplace_inserts_at_position_witness :
    ((⟨[some 10, none], 1⟩ : Vector Nat).Emplace 0 5).Size
        = (⟨[some 10, none], 1⟩ : Vector Nat).Size + 1 ∧
    ((⟨[some 10, none], 1⟩ : Vector Nat).Emplace 0 5).contents
      = (⟨[some 10, none], 1⟩ : Vector Nat).contents.take 0
          ++ some 5 :: (⟨[some 10, none], 1⟩ : Vector Nat).contents.drop 0 :=
  emplace_inserts_at_position Nat ⟨[some 10, none], 1⟩ 0 5 (by decide) (by decide)

/-- C4: every state reachable by a sequence of public operations satisfies
`size ≤ capacity`, and a slot holds a live constructed element exactly at the
offsets `[0, size)`. -/
theorem reachable_states_inv (T : Type) (v : Vector T) (h : Reachable v) :
    v.Size ≤ v.Capacity ∧ ∀ i, (readSlot v.data_ i).isSome ↔ i < v.Size :=
  inv_of_reachable h

theorem reachable_states_inv_witness :
    ((Vector.mkDefault : Vector Nat).PushBack 5).Size
        ≤ ((Vector.mkDefault : Vector Nat).PushBack 5).Capacity ∧
    ((readSlot ((Vector.mkDefault : Vector Nat).PushBack 5).data_ 0).isSome
        ↔ 0 < ((Vector.mkDefault : Vector Nat).PushBack 5).Size) := by
  have h := reachable_states_inv Nat ((Vector.mkDefault : Vector Nat).PushBack 5)
    (Reachable.pushBack Vector.mkDefault 5 Reachable.mkDefault)
  exact ⟨h.1, h.2 0⟩

/-- C5: starting from the default-constructed vector, after `n ≥ 1` PushBack
calls the capacity is the unique power of two in `[n, 2n)` — i.e. the
sequence of capacities is 1, 2, 4, 8, … (first growth to 1, thereafter
doubling exactly when size reaches capacity) — and `PushBack` never changes
the capacity while `size < capacity`. -/
theorem pushback_growth_doubling (T : Type) (x : T) (n : Nat) (hn : 1 ≤ n) :
    (∃ k, (Vector.pushRepeat x n).Capacity = 2 ^ k ∧ n ≤ 2 ^ k ∧ 2 ^ k < 2 * n) ∧
    (∀ (v : Vector T) (y : T), v.Size < v.Capacity →
      (v.PushBack y).Capacity = v.Capacity) := by
  refine ⟨pushRepeat_capacity_pow x n hn, fun v y hlt => ?_⟩
  have hlt' : v.size_ < v.Capacity := hlt
  exact Capacity_PushBack_room v y (by omega)

theorem pushback_growth_doubling_witness :
    1 ≤ 3 ∧
    ((∃ k, (Vector.pushRepeat (0 : Nat) 3).Capacity = 2 ^ k ∧ 3 ≤ 2 ^ k ∧ 2 ^ k < 2 * 3) ∧
     (∀ (v : Vector Nat) (y : Nat), v.Size < v.Capacity →
       (v.PushBack y).Capacity = v.Capacity)) :=
  ⟨by omega, pushback_growth_doubling Nat 0 3 (by omega)⟩

/-- C6: copy-assignment between distinct objects (`sameObject = false`)
leaves the destination with the source's size and exactly the source's
element values, in every branch (copy-and-swap when the source is larger than
the destination's capacity, buffer reuse otherwise); the source operand is
only read, never written. -/
theorem assign_copy_makes_equal (T : Type) (b a : Vector T) :
    (b.assignCopy a false).Size = a.Size ∧
    (b.assignCopy a false).contents = a.contents := by
  constructor
  · show (Vector.assignCopyBody b a).size_ = a.size_
    exact Size_assignCopyBody b a
  · show (Vector.assignCopyBody b a).contents = a.contents
    apply List.ext_getElem?
    intro j
    rw [contents_getElem?, contents_getElem?, Size_assignCopyBody]
    by_cases hj : j < a.size_
    · rw [if_pos hj, if_pos hj, readSlot_assignCopyBody b a j hj]
    · rw [if_neg hj, if_neg hj]

/-- C7: `Erase` at a valid position `k` removes the element at `k`, shifts the
subsequent elements left preserving their order, and decreases the size by
exactly one, for every `k < size` including the first and the last element. -/
theorem erase_shifts_left (T : Type) (v : Vector T) (k : Nat)
    (hk : k < v.Size) (hc : v.Size ≤ v.Capacity) :
    (v.Erase k).Size = v.Size - 1 ∧
    (v.Erase k).contents = v.contents.take k ++ v.contents.drop (k + 1) := by
  have hk' : k < v.size_ := hk
  have hc' : v.size_ ≤ v.Capacity := hc
  refine ⟨rfl, ?_⟩
  apply List.ext_getElem?
  intro j
  rw [contents_getElem?,
    eraseList_getElem? v.contents k (by rw [length_contents]; exact hk') j,
    Size_Erase]
  by_cases hj : j < v.size_ - 1
  · rw [if_pos hj, readSlot_Erase v k hk' hc' j hj]
    by_cases h1 : j < k
    · rw [if_pos h1, if_pos h1, contents_getElem?, if_pos (show j < v.size_ by omega)]
    · rw [if_neg h1, if_neg h1, contents_getElem?, if_pos (show j + 1 < v.size_ by omega)]
  · rw [if_neg hj]
    by_cases h1 : j < k
    · rw [if_pos h1, contents_getElem?, if_neg (show ¬(j < v.size_) by omega)]
    · rw [if_neg h1, contents_getElem?, if_neg (show ¬(j + 1 < v.size_) by omega)]

theorem erase_shifts_left_witness :
    ((⟨[some 1, some 2], 2⟩ : Vector Nat).Erase 0).Size
        = (⟨[some 1, some 2], 2⟩ : Vector Nat).Size - 1 ∧
    ((⟨[some 1, some 2], 2⟩ : Vector Nat).Erase 0).contents
      = (⟨[some 1, some 2], 2⟩ : Vector Nat).contents.take 0
          ++ (⟨[some 1, some 2], 2⟩ : Vector Nat).contents.drop 1 :=
  erase_shifts_left Nat ⟨[some 1, some 2], 2⟩ 0 (by decide) (by decide)

/-- C8: `Resize(n)` (with `n` the current size, a no-op), then `Resize(m)`
with `m < n`, then `Resize(n)` again yields size `n`, with the first `m`
slots holding their original values and the slots `[m, n)` holding the
value-initialized (default) element value. -/
theorem resize_roundtrip (T : Type) (v : Vector T) (d : T) (m : Nat)
    (hm : m < v.Size) (hc : v.Size ≤ v.Capacity) :
    (((v.Resize d v.Size).Resize d m).Resize d v.Size).Size = v.Size ∧
    (((v.Resize d v.Size).Resize d m).Resize d v.Size).contents
      = v.contents.take m ++ List.replicate (v.Size - m) (some d) := by
  have hm' : m < v.size_ := hm
  have hc' : v.size_ ≤ v.Capacity := hc
  have hms : m ≤ v.size_ := by omega
  simp only [Vector.Size]
  rw [Resize_self]
  have hcap2 : (v.Resize d m).Capacity = v.Capacity := by
    simp only [Vector.Resize, Vector.Capacity, if_pos hms]
    rw [length_destroyN]
  have hsize2 : (v.Resize d m).size_ = m := Size_Resize v d m
  constructor
  · rw [Size_Resize]
  · apply List.ext_getElem?
    intro j
    rw [contents_getElem?, Size_Resize,
      padList_getElem? v.contents m (v.size_ - m) (some d)
        (by rw [length_contents]; omega) j]
    by_cases hj : j < v.size_
    · rw [if_pos hj,
        readSlot_Resize_grow (v.Resize d m) d v.size_ (by rw [hsize2]; omega)
          (by rw [hsize2, hcap2]; omega) j,
        hsize2]
      by_cases h1 : j < m
      · rw [if_neg (show ¬(m ≤ j ∧ j < v.size_) by omega), if_pos h1,
          readSlot_Resize_le v d m hms j, if_neg (show ¬(m ≤ j ∧ j < v.size_) by omega),
          if_pos h1, contents_getElem?, if_pos (show j < v.size_ by omega)]
      · rw [if_pos ⟨by omega, hj⟩, if_neg h1,
          if_pos (show j < m + (v.size_ - m) by omega)]
    · rw [if_neg hj, if_neg (show ¬(j < m) by omega),
        if_neg (show ¬(j < m + (v.size_ - m)) by omega)]

theorem resize_roundtrip_witness :
    ((((⟨[some 7, some 8], 2⟩ : Vector Nat).Resize 0
          (⟨[some 7, some 8], 2⟩ : Vector Nat).Size).Resize 0 1).Resize 0
        (⟨[some 7, some 8], 2⟩ : Vector Nat).Size).Size
      = (⟨[some 7, some 8], 2⟩ : Vector Nat).Size ∧
    ((((⟨[some 7, some 8], 2⟩ : Vector Nat).Resize 0
          (⟨[some 7, some 8], 2⟩ : Vector Nat).Size).Resize 0 1).Resize 0
        (⟨[some 7, some 8], 2⟩ : Vector Nat).Size).contents
      = (⟨[some 7, some 8], 2⟩ : Vector Nat).contents.take 1
          ++ List.replicate ((⟨[some 7, some 8], 2⟩ : Vector Nat).Size - 1) (some 0) :=
  resize_roundtrip Nat ⟨[some 7, some 8], 2⟩ 0 1 (by decide) (by decide)

/-- C9: move construction and move assignment hand the source's buffer and
size to the destination verbatim and leave the source with `Size() = 0` and
`Capacity() = 0`; both are total functions of the states (no allocation is
performed and no failure is possible). -/
theorem move_transfers_and_empties_source (T : Type) (a b : Vector T) :
    (Vector.moveConstruct a).1 = ⟨a.data_, a.size_⟩ ∧
    (Vector.moveConstruct a).2.Size = 0 ∧ (Vector.moveConstruct a).2.Capacity = 0 ∧
    (b.assignMove a).1 = ⟨a.data_, a.size_⟩ ∧
    (b.assignMove a).2.Size = 0 ∧ (b.assignMove a).2.Capacity = 0 :=
  ⟨rfl, rfl, rfl, rfl, rfl, rfl⟩

/-- C10: self-copy-assignment (the `this == &rhs` guard taken) returns the
vector unchanged: same size, capacity and element values. -/
theorem self_copy_assign_noop (T : Type) (a : Vector T) :
    a.assignCopy a true = a := rfl

/-- The spec's example scenario: start empty; EmplaceBack 1, 2, 3 gives size
3, capacity 4, content [1,2,3]; Insert at 1 of 99 gives [1,99,2,3]; Erase at 0
gives [99,2,3]. -/
theorem example_scenario :
    ((((Vector.mkDefault : Vector Nat).EmplaceBack 1).EmplaceBack 2).EmplaceBack 3).Size = 3 ∧
    ((((Vector.mkDefault : Vector Nat).EmplaceBack 1).EmplaceBack 2).EmplaceBack 3).Capacity = 4 ∧
    ((((Vector.mkDefault : Vector Nat).EmplaceBack 1).EmplaceBack 2).EmplaceBack 3).contents
      = [some 1, some 2, some 3] ∧
    (((((Vector.mkDefault : Vector Nat).EmplaceBack 1).EmplaceBack 2).EmplaceBack 3).Insert 1
        99).contents = [some 1, some 99, some 2, some 3] ∧
    ((((((Vector.mkDefault : Vector Nat).EmplaceBack 1).EmplaceBack 2).EmplaceBack 3).Insert 1
        99).Erase 0).contents = [some 99, some 2, some 3] := by
  decide

end AdvVec
